import Mathlib

/-!
Shallow embedding of `crackadilo.py`, a sequential wrapper that validates
prerequisites, benchmarks hashcat (with a cached result file), converts
`.cap` captures to `.22000` hash files, merges them into `combined.22000`,
and runs a fixed escalating list of cracking sessions.

External effects (subprocess exit codes, file contents, directory listings)
are inputs of the model; the program's observable behaviour is a trace of
events mirroring its prints, subprocess invocations, file writes and exits.
-/

namespace Crackadilo

/-! ### Python string primitives, modelled on `List Char` -/

/-- The whitespace characters stripped by Python `str.strip()`. -/
def isPySpace (c : Char) : Bool :=
  c = ' ' || c = '\t' || c = '\n' || c = '\r' || c = '\x0B' || c = '\x0C'

/-- Python `str.lstrip()` on a character list. -/
def lstripList (l : List Char) : List Char := l.dropWhile isPySpace

/-- Python `str.rstrip()` on a character list. -/
def rstripList (l : List Char) : List Char := (l.reverse.dropWhile isPySpace).reverse

/-- Python `str.strip()` on a character list. -/
def pyStripList (l : List Char) : List Char := rstripList (lstripList l)

/-- Python `str.strip()`. -/
def pyStrip (s : String) : String := String.mk (pyStripList s.data)

/-- Python `file.readline()` of a whole file content: the characters up to and
including the first newline, or the whole content when it has no newline. -/
def readlineList : List Char → List Char
  | [] => []
  | c :: rest => if c = '\n' then ['\n'] else c :: readlineList rest

/-- Python `f.readline()` on a file whose entire content is `s`. -/
def readline (s : String) : String := String.mk (readlineList s.data)

/-- Does the first list begin with the second list (the pattern)? -/
def beginsWithList : List Char → List Char → Bool
  | _, [] => true
  | [], _ :: _ => false
  | a :: as, b :: bs => (a = b) && beginsWithList as bs

/-- Does `s` end with `suf` (as `str.endswith` / glob on an extension)? -/
def pyEndsWith (s suf : String) : Bool :=
  beginsWithList s.data.reverse suf.data.reverse

/-- Python `s.split(sep)` for a one-character separator. -/
def splitOnCharList (sep : Char) : List Char → List (List Char)
  | [] => [[]]
  | c :: rest =>
      if c = sep then [] :: splitOnCharList sep rest
      else
        match splitOnCharList sep rest with
        | [] => [[c]]
        | g :: gs => (c :: g) :: gs

/-- Python `s.split(sep)[0]` for a nonempty separator: the characters before
the first occurrence of `sep`, or all of them when `sep` does not occur. -/
def upToSub (sep : List Char) : List Char → List Char
  | [] => []
  | c :: rest => if beginsWithList (c :: rest) sep then [] else c :: upToSub sep rest

/-- Python `sub in s` (substring containment). -/
def containsSub (s sub : String) : Bool :=
  s.data.tails.any (fun t => beginsWithList t sub.data)

/-- Python `str.lower()` (the source only lowercases ASCII titles). -/
def pyLower (s : String) : String := String.mk (s.data.map Char.toLower)

/-- Python `s.replace(" ", "_")`. -/
def replaceSpaceUnderscore (s : String) : String :=
  String.mk (s.data.map (fun c => if c = ' ' then '_' else c))

/-- Python `str.splitlines()`: accumulator-based splitter recognising
`\r\n`, `\r` and `\n`, with no trailing empty line. -/
def pySplitlinesAux : List Char → List Char → List String
  | [], acc => if acc.isEmpty then [] else [String.mk acc.reverse]
  | '\r' :: '\n' :: rest, acc => String.mk acc.reverse :: pySplitlinesAux rest []
  | '\r' :: rest, acc => String.mk acc.reverse :: pySplitlinesAux rest []
  | '\n' :: rest, acc => String.mk acc.reverse :: pySplitlinesAux rest []
  | c :: rest, acc => pySplitlinesAux rest (c :: acc)

/-- Python `str.splitlines()`. -/
def pySplitlines (s : String) : List String := pySplitlinesAux s.data []

/-! ### The attack-profile table (`WORDLISTS` in the source) -/

/-- One entry of the `WORDLISTS` table: a title, a wordlist file name, and an
optional rule file name (`False` in the source becomes `none`). -/
structure Profile where
  title : String
  path : String
  rule : Option String
deriving DecidableEq

/-- The fixed, ordered attack-profile list of the source. -/
def WORDLISTS : List Profile :=
  [⟨"Test (rockyou-65)", "rockyou-65.txt.gz", none⟩,
   ⟨"Ultra fast (rockyou-65 with rules)", "rockyou-65.txt.gz", some "best66.rule"⟩,
   ⟨"Fast (hk_hlm_founds)", "hk_hlm_founds.txt.gz", none⟩,
   ⟨"Medium (hashkiller24)", "hashkiller24.txt.gz", none⟩,
   ⟨"Slow (weakpass_4)", "weakpass_4.txt.gz", none⟩,
   ⟨"Slower (hk_hlm_founds with rules)", "hk_hlm_founds.txt.gz", some "best66.rule"⟩,
   ⟨"Slowest (hashkiller24 with rules)", "hashkiller24.txt.gz", some "best66.rule"⟩]

/-! ### The benchmark runner (`run_hashcat_benchmark`) -/

/-- Inputs of one call of `run_hashcat_benchmark` that the environment
decides: the content of `benchmark_result.txt` (`none` when the file does not
exist), whether `Popen`/`communicate` raises, and the benchmark subprocess's
return code and stdout. -/
structure BenchInput where
  cache : Option String
  popenFails : Bool
  rc : Int
  stdout : String

/-- Observable events of `run_hashcat_benchmark`. -/
inductive BEvent where
  | cacheHit (line : String)
  | spinnerStart
  | procStart
  | procWait (rc : Int)
  | spinnerSignal
  | spinnerJoin
  | benchError (rc : Int)
  | printResult (msg : String)
  | writeCache (msg : String)
  | exceptionCaught
  | ret
deriving DecidableEq

/-- The device/speed parsing of one stdout line (lines 127-136 of the source):
`line.split(":")[1]` raises `IndexError` (modelled as `none`) when the line
has no `":"`. The accumulator is the `(device, result)` pair. -/
def parseBenchLine (acc : String × String) (line : String) : Option (String × String) :=
  if containsSub line "Device" then
    match (splitOnCharList ':' line.data).get? 1 with
    | none => none
    | some seg =>
        let device := pyStrip (String.mk seg)
        some (String.mk (upToSub (", ".data) device.data), acc.2)
  else if containsSub line "Speed" then
    match (splitOnCharList ':' line.data).get? 1 with
    | none => none
    | some seg =>
        let r := pyStrip (String.mk seg)
        some (acc.1, pyStrip (String.mk (upToSub ("@".data) r.data)))
  else
    some acc

/-- The parsing loop over all stdout lines, short-circuiting on `IndexError`. -/
def parseBenchLines : List String → String × String → Option (String × String)
  | [], acc => some acc
  | l :: rest, acc =>
      match parseBenchLine acc l with
      | none => none
      | some acc2 => parseBenchLines rest acc2

/-- The display message built from the benchmark stdout, or `none` when
parsing raised. Defaults match the source's initial `device`/`result`. -/
def benchDisplay (stdout : String) : Option String :=
  match parseBenchLines (pySplitlines (pyStrip stdout))
      ("Unknown Device", "Unknown hashes per second") with
  | none => none
  | some dr => some ("⏲️  Your " ++ dr.1 ++ " can perform: " ++ dr.2)

/-- The function `run_hashcat_benchmark`: returns the event trace and the content of
`benchmark_result.txt` after the call. The cached path returns early when the
file's first line is truthy (nonempty); otherwise the spinner thread is
started, the subprocess run and waited for, the spinner signalled and joined,
errors reported, and on success the display message printed and cached. The
`finally` block signals the spinner again (and joins it when still alive,
which is only the case on the exception path). -/
def runHashcatBenchmark (inp : BenchInput) : List BEvent × Option String :=
  match inp.cache with
  | some content =>
      if readline content ≠ "" then
        ([.cacheHit (pyStrip (readline content)), .ret], inp.cache)
      else
        runBody inp
  | none => runBody inp
where
  runBody (inp : BenchInput) : List BEvent × Option String :=
    if inp.popenFails then
      ([.spinnerStart, .exceptionCaught, .spinnerSignal, .spinnerJoin, .ret], inp.cache)
    else if inp.rc ≠ 0 then
      ([.spinnerStart, .procStart, .procWait inp.rc, .spinnerSignal, .spinnerJoin,
        .benchError inp.rc, .spinnerSignal, .ret], inp.cache)
    else
      match benchDisplay inp.stdout with
      | none =>
          ([.spinnerStart, .procStart, .procWait inp.rc, .spinnerSignal, .spinnerJoin,
            .exceptionCaught, .spinnerSignal, .ret], inp.cache)
      | some msg =>
          ([.spinnerStart, .procStart, .procWait inp.rc, .spinnerSignal, .spinnerJoin,
            .printResult msg, .writeCache msg, .spinnerSignal, .ret], some msg)

/-! ### The `main` pipeline -/

/-- Observable events of `main`. -/
inductive Event where
  | hashcatOk
  | hashcatFail
  | hcxOk
  | hcxFail
  | capDirFail
  | capturesFound
  | noCaptures
  | wordlistsDirFail
  | wordlistMissing (title : String)
  | wordlistsOk
  | ruleMissing (rule : String)
  | rulesOk
  | bench (e : BEvent)
  | convertStart (file : String)
  | convertDone (file : String) (rc : Int)
  | convertSkip (file : String)
  | noHashes
  | mergeWrite (content : String)
  | crackStart (session : String)
  | crackDone (session : String) (rc : Int)
  | exitProg (code : Nat)
deriving DecidableEq

/-- The environment of one run of `main`: exit codes of the two version
checks, the capture directory listing as `(file name, file content)` pairs,
the names present in the wordlists directory, existence of the two candidate
rules directories and their listings, the benchmark environment, and the
outcome of each conversion subprocess (return code and the `.22000` file it
leaves behind, if any) and of each cracking subprocess. -/
structure World where
  hashcatRC : Int
  hcxRC : Int
  capDirExists : Bool
  files : List (String × String)
  wordlistsDirExists : Bool
  wordlistFiles : List String
  rulesDirExists : Bool
  altRulesDirExists : Bool
  ruleFilesMain : List String
  ruleFilesAlt : List String
  bench : BenchInput
  convert : String → Int × Option String
  crack : Nat → Int

/-- Python `directory.glob` with pattern `"*" + ext`: the files whose name ends with `ext`,
in directory enumeration order. -/
def globExt (files : List (String × String)) (ext : String) : List (String × String) :=
  files.filter (fun f => pyEndsWith f.1 ext)

/-- Python `cap_file.with_suffix` with `.22000`, for a name ending in `.cap`. -/
def withSuffix22000 (cap : String) : String :=
  String.mk (cap.data.take (cap.data.length - 4) ++ ".22000".data)

/-- The `.cap` conversion loop (lines 245-259): for each globbed `.cap` name,
skip it when its `.22000` target already exists in the directory, otherwise
run `hcxpcapngtool` and record its return code; the subprocess may leave a
new `.22000` file in the directory. Returns the events and the directory
content after the loop. -/
def convertLoop (conv : String → Int × Option String) :
    List String → List (String × String) → List Event × List (String × String)
  | [], dir => ([], dir)
  | cap :: rest, dir =>
      if withSuffix22000 cap ∈ dir.map Prod.fst then
        let r := convertLoop conv rest dir
        (Event.convertSkip cap :: r.1, r.2)
      else
        let out := conv cap
        let dir2 := match out.2 with
          | some content => dir ++ [(withSuffix22000 cap, content)]
          | none => dir
        let r := convertLoop conv rest dir2
        (Event.convertStart cap :: Event.convertDone cap out.1 :: r.1, r.2)

/-- The `hashes` list of the merge step (lines 262-268): the stripped first
line of each `.22000` file, in enumeration order. -/
def mergeHashes (dir : List (String × String)) : List String :=
  (globExt dir ".22000").map (fun f => pyStrip (readline f.2))

/-- The content written to `combined.22000` (lines 274-276): each hash
followed by a newline, appended in order. -/
def combinedContent (dir : List (String × String)) : String :=
  (mergeHashes dir).foldl (fun acc h => acc ++ h ++ "\n") ""

/-- The merge step (lines 262-277): exits with status 0 when no hashes were
collected, otherwise writes `combined.22000`. Returns the events and the
written content, if any. -/
def mergeStep (dir : List (String × String)) : List Event × Option String :=
  if mergeHashes dir = [] then
    ([.noHashes, .exitProg 0], none)
  else
    ([.mergeWrite (combinedContent dir)], some (combinedContent dir))

/-- The session name of a profile (line 293):
`title.split("(")[0].strip().replace(" ", "_").lower()`. -/
def sessionName (title : String) : String :=
  pyLower (replaceSpaceUnderscore (pyStrip
    (String.mk ((splitOnCharList '(' title.data).headD title.data))))

/-- The cracking loop (lines 292-321): one session per profile in table
order; the subprocess output is streamed, the process waited for, and its
return code never examined. -/
def crackLoop (crack : Nat → Int) : List Profile → Nat → List Event
  | [], _ => []
  | p :: rest, i =>
      Event.crackStart (sessionName p.title) ::
      Event.crackDone (sessionName p.title) (crack i) ::
      crackLoop crack rest (i + 1)

/-- Outcome of the validation block (lines 172-234): either the trace of a
run that exits during validation, or the validation events of a passing run. -/
inductive ValOutcome where
  | fail (tr : List Event)
  | pass (ev : List Event)

/-- The validation block: the two version checks (a nonzero exit code raises
`CalledProcessError` and the program exits 1), the capture-directory check
(no `.cap` or `.22000` file exits 0), the wordlists check (the first missing
wordlist exits 1), and the rules check, which is silently skipped when
neither `RULES_DIR` nor `ALT_RULES_DIR` exists. -/
def validate (w : World) : ValOutcome :=
  if w.hashcatRC ≠ 0 then .fail [.hashcatFail, .exitProg 1] else
  if w.hcxRC ≠ 0 then .fail [.hashcatOk, .hcxFail, .exitProg 1] else
  if w.capDirExists = false then .fail [.hashcatOk, .hcxOk, .capDirFail, .exitProg 1] else
  if globExt w.files ".cap" ++ globExt w.files ".22000" = [] then
    .fail [.hashcatOk, .hcxOk, .noCaptures, .exitProg 0] else
  if w.wordlistsDirExists = false then
    .fail [.hashcatOk, .hcxOk, .capturesFound, .wordlistsDirFail, .exitProg 1] else
  match WORDLISTS.find? (fun p => !(w.wordlistFiles.contains p.path)) with
  | some p =>
      .fail [.hashcatOk, .hcxOk, .capturesFound, .wordlistMissing p.title, .exitProg 1]
  | none =>
      if w.rulesDirExists || w.altRulesDirExists then
        match WORDLISTS.find? (fun p =>
            match p.rule with
            | some r =>
                !((if w.rulesDirExists then w.ruleFilesMain else w.ruleFilesAlt).contains r)
            | none => false) with
        | some p =>
            .fail [.hashcatOk, .hcxOk, .capturesFound, .wordlistsOk,
                   .ruleMissing (p.rule.getD ""), .exitProg 1]
        | none => .pass [.hashcatOk, .hcxOk, .capturesFound, .wordlistsOk, .rulesOk]
      else
        .pass [.hashcatOk, .hcxOk, .capturesFound, .wordlistsOk]

/-- The benchmark events as seen in the `main` trace. -/
def benchEvents (w : World) : List Event :=
  (runHashcatBenchmark w.bench).1.map Event.bench

/-- The conversion loop of a run, applied to the globbed `.cap` names and
the capture directory. -/
def convResult (w : World) : List Event × List (String × String) :=
  convertLoop w.convert ((globExt w.files ".cap").map Prod.fst) w.files

/-- The part of `main` after validation: benchmark, conversion loop, merge
step, and — when a combined file was written — the cracking loop and the
final `exit(0)` (lines 238-324). -/
def pipelineTrace (w : World) : List Event :=
  match (mergeStep (convResult w).2).2 with
  | none => benchEvents w ++ (convResult w).1 ++ (mergeStep (convResult w).2).1
  | some _ =>
      benchEvents w ++ (convResult w).1 ++ (mergeStep (convResult w).2).1 ++
      crackLoop w.crack WORDLISTS 0 ++ [.exitProg 0]

/-- The full observable trace of `main` on a given environment. -/
def mainTrace (w : World) : List Event :=
  match validate w with
  | .fail tr => tr
  | .pass ev => ev ++ pipelineTrace w

/-- The pipeline stage an event belongs to: validation 0, benchmark 1,
conversion 2, merge 3, cracking 4, program exit 5. -/
def stageOf : Event → Nat
  | .bench _ => 1
  | .convertStart _ => 2
  | .convertDone _ _ => 2
  | .convertSkip _ => 2
  | .noHashes => 3
  | .mergeWrite _ => 3
  | .crackStart _ => 4
  | .crackDone _ _ => 4
  | .exitProg _ => 5
  | _ => 0

/-- Is this event the launch of a cracking session? -/
def isCrackStart : Event → Bool
  | .crackStart _ => true
  | _ => false

/-- Every subprocess launch in `main` is immediately followed by the blocking
wait on that same subprocess. -/
def seqWaits : List Event → Bool
  | [] => true
  | .convertStart f :: .convertDone f2 _ :: rest => (f = f2) && seqWaits rest
  | .convertStart _ :: _ => false
  | .crackStart s :: .crackDone s2 _ :: rest => (s = s2) && seqWaits rest
  | .crackStart _ :: _ => false
  | _ :: rest => seqWaits rest

/-- The number of newline characters in a string. -/
def newlineCount (s : String) : Nat := s.data.count '\n'

/-! ### Concrete environments used to exercise the model -/

/-- The wordlist file names the profile table requires. -/
def wordlistNames : List String :=
  ["rockyou-65.txt.gz", "hk_hlm_founds.txt.gz", "hashkiller24.txt.gz", "weakpass_4.txt.gz"]

/-- A benchmark environment with a nonempty cache file. -/
def benchCached : BenchInput := ⟨some "B\n", false, 0, ""⟩

/-- A fully healthy environment: prerequisites installed, one already
converted capture, all wordlists and rules present, cached benchmark. -/
def wOk : World :=
  ⟨0, 0, true, [("a.22000", "HASH\n")], true, wordlistNames, true, false,
   ["best66.rule"], [], benchCached, fun _ => (0, none), fun _ => 0⟩

/-- Like `wOk` but with one unconverted capture whose conversion subprocess
exits with return code 1 and leaves no output file. -/
def wConvFail : World :=
  ⟨0, 0, true, [("a.cap", "x"), ("b.22000", "HASH\n")], true, wordlistNames, true, false,
   ["best66.rule"], [], benchCached, fun _ => (1, none), fun _ => 0⟩

/-- Like `wOk` but neither `RULES_DIR` nor `ALT_RULES_DIR` exists, so no rule
file exists either. -/
def wNoRules : World :=
  ⟨0, 0, true, [("a.22000", "HASH\n")], true, wordlistNames, false, false,
   [], [], benchCached, fun _ => (0, none), fun _ => 0⟩

/-- Prerequisites missing: the `hashcat --version` check fails. -/
def wBadHashcat : World :=
  ⟨127, 0, true, [], true, [], true, false, [], [], benchCached,
   fun _ => (0, none), fun _ => 0⟩

/-- Prerequisites missing: the `hcxdumptool --version` check fails. -/
def wBadHcx : World :=
  ⟨0, 127, true, [], true, [], true, false, [], [], benchCached,
   fun _ => (0, none), fun _ => 0⟩

/-- Like `wOk` but one wordlist of the profile table is absent. -/
def wNoWordlist : World :=
  ⟨0, 0, true, [("a.22000", "H")], true, ["rockyou-65.txt.gz"], true, false,
   ["best66.rule"], [], benchCached, fun _ => (0, none), fun _ => 0⟩

/-- Like `wOk` but the rules directory exists and `best66.rule` is absent. -/
def wNoRule : World :=
  ⟨0, 0, true, [("a.22000", "H")], true, wordlistNames, true, false, [], [],
   benchCached, fun _ => (0, none), fun _ => 0⟩

/-- Does this event launch a subprocess inside `main`? -/
def isStartEvent : Event → Bool
  | .convertStart _ => true
  | .crackStart _ => true
  | _ => false

/-- Events ordered by pipeline stage. -/
def stageLE (a b : Event) : Prop := stageOf a ≤ stageOf b

/-- Does this event belong to the rules existence check (lines 220-231)? -/
def mentionsRuleCheck : Event → Bool
  | .ruleMissing _ => true
  | .rulesOk => true
  | _ => false

/-! ### String lemmas -/

lemma isPySpace_newline : isPySpace '\n' = true := by decide

lemma mem_of_mem_rstripList {c : Char} {l : List Char} (h : c ∈ rstripList l) : c ∈ l := by
  unfold rstripList at h
  rw [List.mem_reverse] at h
  exact List.mem_reverse.mp ((List.dropWhile_sublist _).subset h)

lemma mem_of_mem_lstripList {c : Char} {l : List Char} (h : c ∈ lstripList l) : c ∈ l :=
  (List.dropWhile_sublist _).subset h

lemma mem_of_mem_pyStripList {c : Char} {l : List Char} (h : c ∈ pyStripList l) : c ∈ l :=
  mem_of_mem_lstripList (mem_of_mem_rstripList h)

lemma rstripList_append_newline (l : List Char) :
    rstripList (l ++ ['\n']) = rstripList l := by
  unfold rstripList
  simp [List.dropWhile_cons, isPySpace_newline]

/-- The model `readline` returns either the whole newline-free content, or a
newline-free head followed by one newline. -/
lemma readlineList_eq (l : List Char) :
    (readlineList l = l ∧ '\n' ∉ l) ∨
    ∃ pre, readlineList l = pre ++ ['\n'] ∧ '\n' ∉ pre := by
  induction l with
  | nil => exact Or.inl ⟨rfl, by simp⟩
  | cons c rest ih =>
      by_cases hc : c = '\n'
      · exact Or.inr ⟨[], by simp [readlineList, hc], by simp⟩
      · rcases ih with ⟨h1, h2⟩ | ⟨pre, h1, h2⟩
        · refine Or.inl ⟨by simp [readlineList, hc, h1], ?_⟩
          simp only [List.mem_cons, not_or]
          exact ⟨fun hne => hc hne.symm, h2⟩
        · refine Or.inr ⟨c :: pre, by simp [readlineList, hc, h1], ?_⟩
          simp only [List.mem_cons, not_or]
          exact ⟨fun hne => hc hne.symm, h2⟩

/-- A merged hash line never contains a newline: `readline` keeps at most a
trailing newline and `strip` removes it. -/
lemma newline_not_mem_strip_readline (s : String) :
    '\n' ∉ (pyStrip (readline s)).data := by
  show '\n' ∉ pyStripList (readlineList s.data)
  rcases readlineList_eq s.data with ⟨h1, h2⟩ | ⟨pre, h1, h2⟩
  · rw [h1]
    exact fun hmem => h2 (mem_of_mem_pyStripList hmem)
  · rw [h1]
    unfold pyStripList lstripList
    rw [List.dropWhile_append]
    by_cases he : (List.dropWhile isPySpace pre).isEmpty
    · simp [he, List.dropWhile_cons, isPySpace_newline, rstripList]
    · rw [if_neg he]
      intro hmem
      rw [rstripList_append_newline] at hmem
      exact h2 (mem_of_mem_lstripList (mem_of_mem_rstripList hmem))

lemma foldl_write_data (hs : List String) (acc : String) :
    (hs.foldl (fun a h => a ++ h ++ "\n") acc).data =
      acc.data ++ (hs.map (fun h => h.data ++ ['\n'])).flatten := by
  induction hs generalizing acc with
  | nil => simp
  | cons h t ih =>
      rw [List.foldl_cons, ih]
      simp [List.append_assoc]

lemma combinedContent_data (dir : List (String × String)) :
    (combinedContent dir).data =
      ((mergeHashes dir).map (fun h => h.data ++ ['\n'])).flatten := by
  unfold combinedContent
  rw [foldl_write_data]
  rfl

lemma count_newline_flatten (hs : List String) (h : ∀ x ∈ hs, '\n' ∉ x.data) :
    ((hs.map (fun h => h.data ++ ['\n'])).flatten).count '\n' = hs.length := by
  induction hs with
  | nil => simp
  | cons a t ih =>
      have ha : '\n' ∉ a.data := h a (by simp)
      have ht : ∀ x ∈ t, '\n' ∉ x.data := fun x hx => h x (by simp [hx])
      simp [List.count_append, List.count_eq_zero.mpr ha, ih ht]

lemma mergeHashes_no_newline (dir : List (String × String)) :
    ∀ x ∈ mergeHashes dir, '\n' ∉ x.data := by
  intro x hx
  unfold mergeHashes at hx
  rw [List.mem_map] at hx
  obtain ⟨f, _, rfl⟩ := hx
  exact newline_not_mem_strip_readline f.2

/-! ### Claim C2 -/

/-- Claim C2: whenever the merge step runs with at least one `.22000` file in
the capture directory, `combined.22000` is written, its character content is
the concatenation, in enumeration order, of the whitespace-stripped first
line of each `.22000` file followed by one newline; it thus holds exactly one
line (one newline) per file, and no hash line contains an interior newline. -/
theorem merge_writes_one_line_per_file (dir : List (String × String))
    (h : globExt dir ".22000" ≠ []) :
    mergeStep dir = ([Event.mergeWrite (combinedContent dir)], some (combinedContent dir)) ∧
    (combinedContent dir).data =
      ((globExt dir ".22000").map (fun f => (pyStrip (readline f.2)).data ++ ['\n'])).flatten ∧
    newlineCount (combinedContent dir) = (globExt dir ".22000").length ∧
    ∀ f ∈ globExt dir ".22000", '\n' ∉ (pyStrip (readline f.2)).data := by
  have hne : mergeHashes dir ≠ [] := by
    unfold mergeHashes
    simpa using h
  refine ⟨by simp [mergeStep, hne], ?_, ?_, ?_⟩
  · rw [combinedContent_data]
    unfold mergeHashes
    rw [List.map_map]
    rfl
  · unfold newlineCount
    rw [combinedContent_data, count_newline_flatten _ (mergeHashes_no_newline dir)]
    unfold mergeHashes
    rw [List.length_map]
  · exact fun f _ => newline_not_mem_strip_readline f.2

/-- Witness for C2 at a directory holding one `.22000` file whose first line
carries trailing whitespace and a second line. -/
theorem merge_writes_one_line_per_file_witness :
    mergeStep [("a.22000", "H1 \nrest")] =
      ([Event.mergeWrite (combinedContent [("a.22000", "H1 \nrest")])],
        some (combinedContent [("a.22000", "H1 \nrest")])) ∧
    (combinedContent [("a.22000", "H1 \nrest")]).data =
      ((globExt [("a.22000", "H1 \nrest")] ".22000").map
        (fun f => (pyStrip (readline f.2)).data ++ ['\n'])).flatten ∧
    newlineCount (combinedContent [("a.22000", "H1 \nrest")]) =
      (globExt [("a.22000", "H1 \nrest")] ".22000").length ∧
    ∀ f ∈ globExt [("a.22000", "H1 \nrest")] ".22000",
      '\n' ∉ (pyStrip (readline f.2)).data :=
  merge_writes_one_line_per_file [("a.22000", "H1 \nrest")] (by decide)

/-! ### Claim C9 -/

lemma lookup_append_of_mem_keys {β : Type} (a : String) (l₁ l₂ : List (String × β))
    (h : a ∈ l₁.map Prod.fst) : List.lookup a (l₁ ++ l₂) = List.lookup a l₁ := by
  induction l₁ with
  | nil => simp at h
  | cons p t ih =>
      by_cases hpa : a == p.1
      · simp [List.lookup, hpa]
      · rw [List.mem_map] at h
        obtain ⟨q, hq, hqa⟩ := h
        rcases List.mem_cons.mp hq with rfl | hqt
        · exact absurd (by simp [hqa]) hpa
        · simp only [List.cons_append, List.lookup, hpa]
          exact ih (List.mem_map.mpr ⟨q, hqt, hqa⟩)

/-- The conversion loop only appends new files to the directory. -/
lemma convertLoop_dir_extends (conv : String → Int × Option String)
    (caps : List String) (dir : List (String × String)) :
    ∃ extra, (convertLoop conv caps dir).2 = dir ++ extra := by
  induction caps generalizing dir with
  | nil => exact ⟨[], by simp [convertLoop]⟩
  | cons c rest ih =>
      by_cases hmem : withSuffix22000 c ∈ dir.map Prod.fst
      · simpa [convertLoop, hmem] using ih dir
      · rcases hout : (conv c).2 with _ | content
        · simpa [convertLoop, hmem, hout] using ih dir
        · obtain ⟨extra, hex⟩ := ih (dir ++ [(withSuffix22000 c, content)])
          exact ⟨(withSuffix22000 c, content) :: extra, by
            simp [convertLoop, hmem, hout, hex]⟩

/-- Core of C9: when a capture's `.22000` target is already present, the loop
never emits a conversion for that capture and emits a skip at its iteration. -/
lemma convertLoop_skips_converted (conv : String → Int × Option String)
    (caps : List String) (dir : List (String × String)) (cap : String)
    (h : withSuffix22000 cap ∈ dir.map Prod.fst) :
    Event.convertStart cap ∉ (convertLoop conv caps dir).1 ∧
    (cap ∈ caps → Event.convertSkip cap ∈ (convertLoop conv caps dir).1) := by
  induction caps generalizing dir with
  | nil => simp [convertLoop]
  | cons c rest ih =>
      by_cases hmem : withSuffix22000 c ∈ dir.map Prod.fst
      · obtain ⟨ih1, ih2⟩ := ih dir h
        refine ⟨?_, ?_⟩
        · simp only [convertLoop, hmem, if_pos, List.mem_cons]
          rintro (hh | hh)
          · cases hh
          · exact ih1 hh
        · intro hcap
          rcases List.mem_cons.mp hcap with rfl | hcrest
          · simp [convertLoop, hmem]
          · simp only [convertLoop, hmem, if_pos, List.mem_cons]
            exact Or.inr (ih2 hcrest)
      · have hne : c ≠ cap := fun he => hmem (he ▸ h)
        have hdir2 : ∀ dir2 : List (String × String),
            dir.map Prod.fst ⊆ dir2.map Prod.fst →
            Event.convertStart cap ∉ (convertLoop conv rest dir2).1 ∧
            (cap ∈ rest → Event.convertSkip cap ∈ (convertLoop conv rest dir2).1) :=
          fun dir2 hsub => ih dir2 (hsub h)
        rcases hout : (conv c).2 with _ | content
        · obtain ⟨ih1, ih2⟩ := hdir2 dir (fun x hx => hx)
          refine ⟨?_, ?_⟩
          · simp only [convertLoop, if_neg hmem, hout, List.mem_cons, not_or]
            refine ⟨?_, by simp, ih1⟩
            intro hh
            exact hne (Event.convertStart.inj hh).symm
          · intro hcap
            rcases List.mem_cons.mp hcap with rfl | hcrest
            · exact absurd h hmem
            · simp only [convertLoop, if_neg hmem, hout, List.mem_cons]
              exact Or.inr (Or.inr (ih2 hcrest))
        · obtain ⟨ih1, ih2⟩ := hdir2 (dir ++ [(withSuffix22000 c, content)])
            (by intro x hx; simp [hx])
          refine ⟨?_, ?_⟩
          · simp only [convertLoop, if_neg hmem, hout, List.mem_cons, not_or]
            refine ⟨?_, by simp, ih1⟩
            intro hh
            exact hne (Event.convertStart.inj hh).symm
          · intro hcap
            rcases List.mem_cons.mp hcap with rfl | hcrest
            · exact absurd h hmem
            · simp only [convertLoop, if_neg hmem, hout, List.mem_cons]
              exact Or.inr (Or.inr (ih2 hcrest))

/-- Claim C9: the conversion step is idempotent per capture file. When the
`.22000` target of a capture already exists in the directory, the converter
subprocess is never invoked for that capture (its iteration emits a skip),
and the content found under the target name after the loop is the content it
had before. -/
theorem conversion_idempotent (conv : String → Int × Option String)
    (caps : List String) (dir : List (String × String)) (cap : String)
    (h : withSuffix22000 cap ∈ dir.map Prod.fst) :
    Event.convertStart cap ∉ (convertLoop conv caps dir).1 ∧
    (cap ∈ caps → Event.convertSkip cap ∈ (convertLoop conv caps dir).1) ∧
    List.lookup (withSuffix22000 cap) (convertLoop conv caps dir).2 =
      List.lookup (withSuffix22000 cap) dir := by
  obtain ⟨h1, h2⟩ := convertLoop_skips_converted conv caps dir cap h
  obtain ⟨extra, hex⟩ := convertLoop_dir_extends conv caps dir
  exact ⟨h1, h2, by rw [hex, lookup_append_of_mem_keys _ _ _ h]⟩

/-- Witness for C9: rerunning the loop on a directory where `a.cap` is
already converted performs no conversion and leaves `a.22000` unchanged. -/
theorem conversion_idempotent_witness :
    Event.convertStart "a.cap" ∉
      (convertLoop (fun _ => (0, some "NEW")) ["a.cap"] [("a.cap", "x"), ("a.22000", "OLD")]).1 ∧
    ("a.cap" ∈ ["a.cap"] → Event.convertSkip "a.cap" ∈
      (convertLoop (fun _ => (0, some "NEW")) ["a.cap"] [("a.cap", "x"), ("a.22000", "OLD")]).1) ∧
    List.lookup (withSuffix22000 "a.cap")
      (convertLoop (fun _ => (0, some "NEW")) ["a.cap"] [("a.cap", "x"), ("a.22000", "OLD")]).2 =
    List.lookup (withSuffix22000 "a.cap") [("a.cap", "x"), ("a.22000", "OLD")] :=
  conversion_idempotent (fun _ => (0, some "NEW")) ["a.cap"]
    [("a.cap", "x"), ("a.22000", "OLD")] "a.cap" (by decide)

/-! ### Claim C10 -/

/-- Claim C10: absence of input is success. With the prerequisites installed
and an existing capture directory holding no `.cap` and no `.22000` file,
the run ends at validation with exit status 0 and no `combined.22000` write;
when the merge step finds no `.22000` files it exits with status 0 without
writing; and an empty `.22000` file still contributes one blank line to the
merged file, every `.22000` file contributing exactly one entry. -/
theorem no_input_is_success (w : World)
    (dirEmpty dirBlank : List (String × String)) (name : String)
    (h1 : w.hashcatRC = 0) (h2 : w.hcxRC = 0) (h3 : w.capDirExists = true)
    (h4 : globExt w.files ".cap" = []) (h5 : globExt w.files ".22000" = [])
    (h6 : globExt dirEmpty ".22000" = [])
    (h7 : (name, "") ∈ dirBlank) (h8 : pyEndsWith name ".22000" = true) :
    mainTrace w = [.hashcatOk, .hcxOk, .noCaptures, .exitProg 0] ∧
    (∀ s, Event.mergeWrite s ∉ mainTrace w) ∧
    mergeStep dirEmpty = ([.noHashes, .exitProg 0], none) ∧
    "" ∈ mergeHashes dirBlank ∧
    (mergeHashes dirBlank).length = (globExt dirBlank ".22000").length := by
  have hv : validate w = .fail [.hashcatOk, .hcxOk, .noCaptures, .exitProg 0] := by
    unfold validate
    simp [h1, h2, h3, h4, h5]
  have hm : mergeStep dirEmpty = ([.noHashes, .exitProg 0], none) := by
    have : mergeHashes dirEmpty = [] := by
      unfold mergeHashes
      rw [h6]
      rfl
    simp [mergeStep, this]
  refine ⟨by simp [mainTrace, hv], by simp [mainTrace, hv], hm, ?_, ?_⟩
  · unfold mergeHashes
    rw [List.mem_map]
    refine ⟨(name, ""), ?_, rfl⟩
    unfold globExt
    rw [List.mem_filter]
    exact ⟨h7, h8⟩
  · unfold mergeHashes
    rw [List.length_map]

/-- Witness for C10: a healthy environment whose capture directory is empty,
a merge-step directory with no `.22000` file, and a merge-step directory
whose sole `.22000` file is empty. -/
theorem no_input_is_success_witness :
    mainTrace ⟨0, 0, true, [], true, wordlistNames, true, false, ["best66.rule"], [],
        benchCached, fun _ => (0, none), fun _ => 0⟩ =
      [.hashcatOk, .hcxOk, .noCaptures, .exitProg 0] ∧
    (∀ s, Event.mergeWrite s ∉ mainTrace ⟨0, 0, true, [], true, wordlistNames, true, false,
        ["best66.rule"], [], benchCached, fun _ => (0, none), fun _ => 0⟩) ∧
    mergeStep [("n.txt", "z")] = ([.noHashes, .exitProg 0], none) ∧
    "" ∈ mergeHashes [("e.22000", "")] ∧
    (mergeHashes [("e.22000", "")]).length = (globExt [("e.22000", "")] ".22000").length :=
  no_input_is_success
    ⟨0, 0, true, [], true, wordlistNames, true, false, ["best66.rule"], [],
      benchCached, fun _ => (0, none), fun _ => 0⟩
    [("n.txt", "z")] [("e.22000", "")] "e.22000"
    rfl rfl rfl (by decide) (by decide) (by decide) (by decide) (by decide)

/-! ### Claims C4 and C8: the benchmark cache -/

lemma runBody_snd_of_fail (inp : BenchInput) (h : inp.popenFails = true ∨ inp.rc ≠ 0) :
    (runHashcatBenchmark.runBody inp).2 = inp.cache := by
  unfold runHashcatBenchmark.runBody
  rcases h with h | h
  · simp [h]
  · by_cases hp : inp.popenFails <;> simp [hp, h]

lemma runBody_writeCache (inp : BenchInput) (msg : String)
    (h : BEvent.writeCache msg ∈ (runHashcatBenchmark.runBody inp).1) :
    inp.rc = 0 ∧ inp.popenFails = false ∧ benchDisplay inp.stdout = some msg := by
  unfold runHashcatBenchmark.runBody at h
  by_cases hp : inp.popenFails
  · simp [hp] at h
  · by_cases hrc : inp.rc = 0
    · rcases hb : benchDisplay inp.stdout with _ | m
      · simp [hp, hrc, hb] at h
      · simp [hp, hrc, hb] at h
        subst h
        exact ⟨hrc, by simpa using hp, rfl⟩
    · simp [hp, hrc] at h

/-- The parse-exception path: a return code of 0 whose stdout makes the
device/speed parsing raise (lines 127-136, caught at line 144) leaves the
cache file exactly as it was. -/
lemma runBody_snd_of_parse_none (inp : BenchInput)
    (h : benchDisplay inp.stdout = none) :
    (runHashcatBenchmark.runBody inp).2 = inp.cache := by
  unfold runHashcatBenchmark.runBody
  by_cases hp : inp.popenFails
  · simp [hp]
  · by_cases hrc : inp.rc = 0
    · simp [hp, hrc, h]
    · simp [hp, hrc]

lemma runBody_spinnerStart (inp : BenchInput) :
    BEvent.spinnerStart ∈ (runHashcatBenchmark.runBody inp).1 := by
  unfold runHashcatBenchmark.runBody
  by_cases hp : inp.popenFails
  · simp [hp]
  · by_cases hrc : inp.rc = 0
    · rcases hb : benchDisplay inp.stdout with _ | msg <;> simp [hp, hrc, hb]
    · simp [hp, hrc]

/-- Claim C4 counterexample: with a cache file that exists but is empty, the
claim fails — the benchmark subprocess is started, nothing is printed from
the cache, and on success the cache file is overwritten with the display
message rather than left unchanged. -/
theorem benchmark_cached_counterexample :
    (runHashcatBenchmark ⟨some "", false, 0, ""⟩).1 =
      [.spinnerStart, .procStart, .procWait 0, .spinnerSignal, .spinnerJoin,
       .printResult "⏲️  Your Unknown Device can perform: Unknown hashes per second",
       .writeCache "⏲️  Your Unknown Device can perform: Unknown hashes per second",
       .spinnerSignal, .ret] ∧
    (runHashcatBenchmark ⟨some "", false, 0, ""⟩).2 ≠ some "" := by decide

/-- Claim C4 (amended): whenever the benchmark cache file exists with a
nonempty first line at the time `run_hashcat_benchmark` is called, no
benchmark subprocess is started; the cached first line is stripped and
printed, and the cache file is left unchanged. -/
theorem benchmark_cached_skips_subprocess (inp : BenchInput) (content : String)
    (h1 : inp.cache = some content) (h2 : readline content ≠ "") :
    (runHashcatBenchmark inp).1 = [.cacheHit (pyStrip (readline content)), .ret] ∧
    (runHashcatBenchmark inp).2 = inp.cache ∧
    BEvent.procStart ∉ (runHashcatBenchmark inp).1 := by
  unfold runHashcatBenchmark
  rw [h1]
  simp only [if_pos h2]
  refine ⟨?_, ?_, ?_⟩ <;> simp

/-- Witness for the amended C4 at a cache file containing `B` and a newline. -/
theorem benchmark_cached_skips_subprocess_witness :
    (runHashcatBenchmark benchCached).1 = [.cacheHit (pyStrip (readline "B\n")), .ret] ∧
    (runHashcatBenchmark benchCached).2 = benchCached.cache ∧
    BEvent.procStart ∉ (runHashcatBenchmark benchCached).1 :=
  benchmark_cached_skips_subprocess benchCached "B\n" rfl (by decide)

/-- Claim C8: the benchmark cache file is written only when the subprocess
exits with return code 0 and the result parsing succeeds; a nonzero exit
code, an exception at `Popen`/`communicate`, or the parse exception raised at
lines 127-136 and caught at line 144 all leave the file in its prior state,
and with no cache file present the next call starts the benchmark again (the
spinner, and with it the attempt, begins). -/
theorem benchmark_cache_only_on_success (inp : BenchInput) :
    (inp.rc ≠ 0 → (runHashcatBenchmark inp).2 = inp.cache) ∧
    (inp.popenFails = true → (runHashcatBenchmark inp).2 = inp.cache) ∧
    (benchDisplay inp.stdout = none → (runHashcatBenchmark inp).2 = inp.cache) ∧
    (∀ msg, BEvent.writeCache msg ∈ (runHashcatBenchmark inp).1 →
      inp.rc = 0 ∧ inp.popenFails = false ∧ benchDisplay inp.stdout = some msg) ∧
    (inp.cache = none → BEvent.spinnerStart ∈ (runHashcatBenchmark inp).1) := by
  rcases hc : inp.cache with _ | content
  · have he : runHashcatBenchmark inp = runHashcatBenchmark.runBody inp := by
      unfold runHashcatBenchmark
      rw [hc]
    rw [he]
    exact ⟨fun h => hc ▸ runBody_snd_of_fail inp (Or.inr h),
           fun h => hc ▸ runBody_snd_of_fail inp (Or.inl h),
           fun h => hc ▸ runBody_snd_of_parse_none inp h,
           fun msg h => runBody_writeCache inp msg h,
           fun _ => runBody_spinnerStart inp⟩
  · by_cases h2 : readline content ≠ ""
    · have he : runHashcatBenchmark inp =
          ([.cacheHit (pyStrip (readline content)), .ret], inp.cache) := by
        unfold runHashcatBenchmark
        rw [hc]
        simp only [if_pos h2]
      rw [he]
      exact ⟨fun _ => hc, fun _ => hc, fun _ => hc, fun msg h => absurd h (by simp),
             fun h => absurd h (by simp)⟩
    · have he : runHashcatBenchmark inp = runHashcatBenchmark.runBody inp := by
        unfold runHashcatBenchmark
        rw [hc]
        simp only [if_neg h2]
      rw [he]
      exact ⟨fun h => hc ▸ runBody_snd_of_fail inp (Or.inr h),
             fun h => hc ▸ runBody_snd_of_fail inp (Or.inl h),
             fun h => hc ▸ runBody_snd_of_parse_none inp h,
             fun msg h => runBody_writeCache inp msg h,
             fun _ => runBody_spinnerStart inp⟩

/-- Witness for C8: a failing benchmark (return code 255, no cache file)
leaves the cache absent and starts the spinner (hence the attempt), and a
succeeding benchmark (return code 0, existing empty cache file) whose stdout
line `Device` has no colon raises during parsing (IndexError, line 129) and
leaves the cache file exactly as it was. -/
theorem benchmark_cache_only_on_success_witness :
    (runHashcatBenchmark ⟨none, false, 255, ""⟩).2 = none ∧
    BEvent.spinnerStart ∈ (runHashcatBenchmark ⟨none, false, 255, ""⟩).1 ∧
    (runHashcatBenchmark ⟨some "", false, 0, "Device"⟩).2 = some "" := by
  obtain ⟨a, -, -, -, d⟩ := benchmark_cache_only_on_success ⟨none, false, 255, ""⟩
  obtain ⟨-, -, c, -, -⟩ := benchmark_cache_only_on_success ⟨some "", false, 0, "Device"⟩
  exact ⟨a (by decide), d rfl, c (by decide)⟩

/-! ### Shape lemmas for `validate` and the pipeline -/

/-- The seven possible traces of a run that exits during validation. -/
lemma validate_fail_cases (w : World) (tr : List Event) (h : validate w = .fail tr) :
    tr = [.hashcatFail, .exitProg 1] ∨
    tr = [.hashcatOk, .hcxFail, .exitProg 1] ∨
    tr = [.hashcatOk, .hcxOk, .capDirFail, .exitProg 1] ∨
    tr = [.hashcatOk, .hcxOk, .noCaptures, .exitProg 0] ∨
    tr = [.hashcatOk, .hcxOk, .capturesFound, .wordlistsDirFail, .exitProg 1] ∨
    (∃ t, tr = [.hashcatOk, .hcxOk, .capturesFound, .wordlistMissing t, .exitProg 1]) ∨
    (∃ r, tr = [.hashcatOk, .hcxOk, .capturesFound, .wordlistsOk, .ruleMissing r,
                .exitProg 1]) := by
  unfold validate at h
  split at h
  · injection h with h2
    subst h2
    exact Or.inl rfl
  split at h
  · injection h with h2
    subst h2
    exact Or.inr (Or.inl rfl)
  split at h
  · injection h with h2
    subst h2
    exact Or.inr (Or.inr (Or.inl rfl))
  split at h
  · injection h with h2
    subst h2
    exact Or.inr (Or.inr (Or.inr (Or.inl rfl)))
  split at h
  · injection h with h2
    subst h2
    exact Or.inr (Or.inr (Or.inr (Or.inr (Or.inl rfl))))
  split at h
  · rename_i p hp
    injection h with h2
    subst h2
    exact Or.inr (Or.inr (Or.inr (Or.inr (Or.inr (Or.inl ⟨p.title, rfl⟩)))))
  · split at h
    · split at h
      · rename_i p hp
        injection h with h2
        subst h2
        exact Or.inr (Or.inr (Or.inr (Or.inr (Or.inr (Or.inr ⟨p.rule.getD "", rfl⟩)))))
      · exact absurd h (by simp)
    · exact absurd h (by simp)

/-- The two possible event lists of a passing validation. -/
lemma validate_pass_cases (w : World) (ev : List Event) (h : validate w = .pass ev) :
    ev = [.hashcatOk, .hcxOk, .capturesFound, .wordlistsOk, .rulesOk] ∨
    ev = [.hashcatOk, .hcxOk, .capturesFound, .wordlistsOk] := by
  unfold validate at h
  split at h
  · exact absurd h (by simp)
  split at h
  · exact absurd h (by simp)
  split at h
  · exact absurd h (by simp)
  split at h
  · exact absurd h (by simp)
  split at h
  · exact absurd h (by simp)
  split at h
  · exact absurd h (by simp)
  · split at h
    · split at h
      · exact absurd h (by simp)
      · injection h with h2
        subst h2
        exact Or.inl rfl
    · injection h with h2
      subst h2
      exact Or.inr rfl

/-- Every event of a failing validation trace is a validation event or an
exit with code 0 or 1. -/
lemma validate_fail_stage (w : World) (tr : List Event) (h : validate w = .fail tr) :
    ∀ e ∈ tr, stageOf e = 0 ∨ e = .exitProg 0 ∨ e = .exitProg 1 := by
  rcases validate_fail_cases w tr h with h1 | h1 | h1 | h1 | h1 | ⟨t, h1⟩ | ⟨r, h1⟩ <;>
    subst h1 <;> intro e he <;> fin_cases he <;> simp [stageOf]

/-- Every event of a passing validation's event list is a validation event. -/
lemma validate_pass_stage (w : World) (ev : List Event) (h : validate w = .pass ev) :
    ∀ e ∈ ev, stageOf e = 0 := by
  rcases validate_pass_cases w ev h with h1 | h1 <;> subst h1 <;> intro e he <;>
    fin_cases he <;> simp [stageOf]

lemma benchEvents_stage (w : World) : ∀ e ∈ benchEvents w, stageOf e = 1 := by
  intro e he
  unfold benchEvents at he
  rw [List.mem_map] at he
  obtain ⟨b, -, rfl⟩ := he
  rfl

lemma convertLoop_stage (conv : String → Int × Option String)
    (caps : List String) (dir : List (String × String)) :
    ∀ e ∈ (convertLoop conv caps dir).1, stageOf e = 2 := by
  induction caps generalizing dir with
  | nil => simp [convertLoop]
  | cons c rest ih =>
      intro e he
      by_cases hmem : withSuffix22000 c ∈ dir.map Prod.fst
      · simp only [convertLoop, if_pos hmem, List.mem_cons] at he
        rcases he with rfl | he
        · rfl
        · exact ih dir e he
      · rcases hout : (conv c).2 with _ | content <;>
          simp only [convertLoop, if_neg hmem, hout, List.mem_cons] at he <;>
          rcases he with rfl | rfl | he <;> first | rfl | exact ih _ e he

lemma crackLoop_stage (crack : Nat → Int) (ps : List Profile) (i : Nat) :
    ∀ e ∈ crackLoop crack ps i, stageOf e = 4 := by
  induction ps generalizing i with
  | nil => simp [crackLoop]
  | cons p rest ih =>
      intro e he
      simp only [crackLoop, List.mem_cons] at he
      rcases he with rfl | rfl | he
      · rfl
      · rfl
      · exact ih (i + 1) e he

/-- When the merge step writes nothing, its full result. -/
lemma mergeStep_none (dir : List (String × String)) (h : (mergeStep dir).2 = none) :
    mergeStep dir = ([.noHashes, .exitProg 0], none) := by
  unfold mergeStep at h ⊢
  split_ifs at h ⊢ with hm
  rfl

/-- When the merge step writes a file, its full result. -/
lemma mergeStep_some (dir : List (String × String)) (c : String)
    (h : (mergeStep dir).2 = some c) :
    mergeStep dir = ([.mergeWrite c], some c) ∧ c = combinedContent dir := by
  unfold mergeStep at h ⊢
  split_ifs at h ⊢ with hm
  have h2 : combinedContent dir = c := by simpa using h
  subst h2
  exact ⟨rfl, rfl⟩

lemma mergeStep_none_fst (dir : List (String × String)) (h : (mergeStep dir).2 = none) :
    (mergeStep dir).1 = [.noHashes, .exitProg 0] := by
  rw [mergeStep_none dir h]

lemma mergeStep_some_fst (dir : List (String × String)) (c : String)
    (h : (mergeStep dir).2 = some c) :
    (mergeStep dir).1 = [.mergeWrite c] := by
  rw [(mergeStep_some dir c h).1]

/-- The pipeline always runs to completion: its last event is `exit(0)`. -/
lemma pipelineTrace_getLast (w : World) :
    (pipelineTrace w).getLast? = some (.exitProg 0) := by
  unfold pipelineTrace
  rcases h : (mergeStep (convResult w).2).2 with _ | c
  · simp only [h, mergeStep_none _ h]
    rw [List.getLast?_append_of_ne_nil _ (by simp)]
    rfl
  · simp only [h, (mergeStep_some _ c h).1]
    rw [List.getLast?_append_of_ne_nil _ (by simp)]
    rfl

lemma pipelineTrace_ne_nil (w : World) : pipelineTrace w ≠ [] := by
  intro hnil
  have := pipelineTrace_getLast w
  rw [hnil] at this
  cases this

/-! ### Claim C1 -/

/-- Claim C1 counterexample: in `wConvFail` the conversion subprocess for
`a.cap` exits with return code 1, yet the pipeline does not stop — the
failure is followed by every cracking session and the run ends with
`exit(0)`. -/
theorem subprocess_failure_aborts_counterexample :
    Event.convertDone "a.cap" 1 ∈ mainTrace wConvFail ∧
    Event.crackStart "test" ∈ mainTrace wConvFail ∧
    (mainTrace wConvFail).getLast? = some (.exitProg 0) ∧
    (mainTrace wConvFail).indexOf (Event.convertDone "a.cap" 1) <
      (mainTrace wConvFail).indexOf (Event.crackStart "test") := by decide

/-- Claim C1 (amended): only the two prerequisite version checks abort the
program on a nonzero exit code (error report, `exit(1)`). Once the benchmark
stage has begun, no subprocess failure stops the run: the trace always ends
with `exit(0)`. -/
theorem prereq_failures_abort_only (w : World) :
    (w.hashcatRC ≠ 0 → mainTrace w = [.hashcatFail, .exitProg 1]) ∧
    (w.hashcatRC = 0 → w.hcxRC ≠ 0 → mainTrace w = [.hashcatOk, .hcxFail, .exitProg 1]) ∧
    (∀ be, Event.bench be ∈ mainTrace w →
      (mainTrace w).getLast? = some (.exitProg 0)) := by
  refine ⟨?_, ?_, ?_⟩
  · intro h
    unfold mainTrace validate
    simp [h]
  · intro h1 h2
    unfold mainTrace validate
    simp [h1, h2]
  · intro be hbe
    unfold mainTrace at hbe ⊢
    rcases hv : validate w with tr | ev
    · rw [hv] at hbe
      rcases validate_fail_stage w tr hv _ hbe with h | h | h
      · exact absurd h (by simp [stageOf])
      · cases h
      · cases h
    · show (ev ++ pipelineTrace w).getLast? = some (Event.exitProg 0)
      rw [List.getLast?_append_of_ne_nil _ (pipelineTrace_ne_nil w)]
      exact pipelineTrace_getLast w

/-- Witness for the amended C1: a failing `hashcat --version`, a failing
`hcxdumptool --version`, and a run whose conversion fails but still ends
with `exit(0)`. -/
theorem prereq_failures_abort_only_witness :
    mainTrace wBadHashcat = [.hashcatFail, .exitProg 1] ∧
    mainTrace wBadHcx = [.hashcatOk, .hcxFail, .exitProg 1] ∧
    (mainTrace wConvFail).getLast? = some (.exitProg 0) :=
  ⟨(prereq_failures_abort_only wBadHashcat).1 (by decide),
   (prereq_failures_abort_only wBadHcx).2.1 rfl (by decide),
   (prereq_failures_abort_only wConvFail).2.2 (BEvent.cacheHit "B") (by decide)⟩

/-! ### Claim C7 -/

lemma isStartEvent_stage (e : Event) (h : isStartEvent e = true) :
    stageOf e = 2 ∨ stageOf e = 4 := by
  cases e <;>
    first
      | exact Or.inl rfl
      | exact Or.inr rfl
      | simp [isStartEvent] at h

lemma seqWaits_cons (e : Event) (l : List Event) (h : isStartEvent e = false) :
    seqWaits (e :: l) = seqWaits l := by
  cases e <;> first | rfl | simp [isStartEvent] at h

lemma seqWaits_append_neutral (l₁ l₂ : List Event)
    (h : ∀ e ∈ l₁, isStartEvent e = false) :
    seqWaits (l₁ ++ l₂) = seqWaits l₂ := by
  induction l₁ with
  | nil => rfl
  | cons e t ih =>
      rw [List.cons_append, seqWaits_cons e _ (h e (by simp)),
          ih (fun x hx => h x (by simp [hx]))]

lemma seqWaits_convert_pair (c : String) (rc : Int) (t : List Event) :
    seqWaits (Event.convertStart c :: Event.convertDone c rc :: t) = seqWaits t := by
  simp [seqWaits]

lemma seqWaits_crack_pair (s : String) (rc : Int) (t : List Event) :
    seqWaits (Event.crackStart s :: Event.crackDone s rc :: t) = seqWaits t := by
  simp [seqWaits]

lemma seqWaits_convertLoop (conv : String → Int × Option String)
    (caps : List String) (dir : List (String × String)) (l : List Event) :
    seqWaits ((convertLoop conv caps dir).1 ++ l) = seqWaits l := by
  induction caps generalizing dir with
  | nil => rfl
  | cons c rest ih =>
      by_cases hmem : withSuffix22000 c ∈ dir.map Prod.fst
      · rw [show (convertLoop conv (c :: rest) dir).1 =
            Event.convertSkip c :: (convertLoop conv rest dir).1 from by
              simp [convertLoop, hmem]]
        rw [List.cons_append, seqWaits_cons (Event.convertSkip c) _ rfl, ih dir]
      · rcases hout : (conv c).2 with _ | content
        · rw [show (convertLoop conv (c :: rest) dir).1 =
              Event.convertStart c :: Event.convertDone c (conv c).1 ::
                (convertLoop conv rest dir).1 from by
                simp [convertLoop, hmem, hout]]
          rw [List.cons_append, List.cons_append, seqWaits_convert_pair, ih dir]
        · rw [show (convertLoop conv (c :: rest) dir).1 =
              Event.convertStart c :: Event.convertDone c (conv c).1 ::
                (convertLoop conv rest (dir ++ [(withSuffix22000 c, content)])).1 from by
                simp [convertLoop, hmem, hout]]
          rw [List.cons_append, List.cons_append, seqWaits_convert_pair, ih _]

lemma seqWaits_crackLoop (crack : Nat → Int) (ps : List Profile) (i : Nat)
    (l : List Event) :
    seqWaits (crackLoop crack ps i ++ l) = seqWaits l := by
  induction ps generalizing i with
  | nil => rfl
  | cons p rest ih =>
      rw [crackLoop, List.cons_append, List.cons_append, seqWaits_crack_pair, ih]

lemma benchEvents_neutral (w : World) : ∀ e ∈ benchEvents w, isStartEvent e = false := by
  intro e he
  unfold benchEvents at he
  rw [List.mem_map] at he
  obtain ⟨b, -, rfl⟩ := he
  rfl

/-- Every run of `main` starts each subprocess only to wait on it at once. -/
lemma seqWaits_mainTrace (w : World) : seqWaits (mainTrace w) = true := by
  have neutral_of_stage : ∀ e : Event,
      (stageOf e = 0 ∨ e = .exitProg 0 ∨ e = .exitProg 1) → isStartEvent e = false := by
    intro e he
    rcases he with h | rfl | rfl
    · by_contra hb
      rcases isStartEvent_stage e (by simpa using hb) with h2 | h2 <;> omega
    · rfl
    · rfl
  have seq_nil : ∀ tr : List Event,
      (∀ e ∈ tr, isStartEvent e = false) → seqWaits tr = true := by
    intro tr hn
    calc seqWaits tr = seqWaits (tr ++ []) := by rw [List.append_nil]
    _ = seqWaits [] := seqWaits_append_neutral tr [] hn
    _ = true := rfl
  unfold mainTrace
  rcases hv : validate w with tr | ev
  · exact seq_nil tr (fun e he => neutral_of_stage e (validate_fail_stage w tr hv e he))
  · rw [seqWaits_append_neutral ev _ (fun e he =>
      neutral_of_stage e (Or.inl (validate_pass_stage w ev hv e he)))]
    unfold pipelineTrace
    rcases hm : (mergeStep (convResult w).2).2 with _ | c
    · rw [mergeStep_none_fst _ hm]
      simp only [List.append_assoc]
      rw [seqWaits_append_neutral _ _ (benchEvents_neutral w)]
      unfold convResult
      rw [seqWaits_convertLoop]
      rfl
    · rw [mergeStep_some_fst _ c hm]
      simp only [List.append_assoc]
      rw [seqWaits_append_neutral _ _ (benchEvents_neutral w)]
      unfold convResult
      rw [seqWaits_convertLoop]
      rw [List.singleton_append]
      rw [seqWaits_cons (Event.mergeWrite c) _ rfl]
      rw [seqWaits_crackLoop]
      rfl

/-- The four possible event traces of `run_hashcat_benchmark` once the body
runs (no usable cache): exception at `Popen`, nonzero return code, parsing
exception, and success. -/
lemma runBody_fst_cases (inp : BenchInput) :
    (runHashcatBenchmark.runBody inp).1 =
      [.spinnerStart, .exceptionCaught, .spinnerSignal, .spinnerJoin, .ret] ∨
    (runHashcatBenchmark.runBody inp).1 =
      [.spinnerStart, .procStart, .procWait inp.rc, .spinnerSignal, .spinnerJoin,
       .benchError inp.rc, .spinnerSignal, .ret] ∨
    (runHashcatBenchmark.runBody inp).1 =
      [.spinnerStart, .procStart, .procWait inp.rc, .spinnerSignal, .spinnerJoin,
       .exceptionCaught, .spinnerSignal, .ret] ∨
    (∃ msg, (runHashcatBenchmark.runBody inp).1 =
      [.spinnerStart, .procStart, .procWait inp.rc, .spinnerSignal, .spinnerJoin,
       .printResult msg, .writeCache msg, .spinnerSignal, .ret]) := by
  unfold runHashcatBenchmark.runBody
  by_cases hp : inp.popenFails = true
  · rw [if_pos hp]
    exact Or.inl rfl
  · rw [if_neg hp]
    by_cases hrc : inp.rc ≠ 0
    · rw [if_pos hrc]
      exact Or.inr (Or.inl rfl)
    · rw [if_neg hrc]
      rcases hb : benchDisplay inp.stdout with _ | msg
      · exact Or.inr (Or.inr (Or.inl rfl))
      · exact Or.inr (Or.inr (Or.inr ⟨msg, rfl⟩))

/-- The trace of `run_hashcat_benchmark` is the cached-path trace or one of
the body traces. -/
lemma runHashcatBenchmark_fst_cases (inp : BenchInput) :
    (∃ l, (runHashcatBenchmark inp).1 = [.cacheHit l, .ret]) ∨
    (runHashcatBenchmark inp).1 = (runHashcatBenchmark.runBody inp).1 := by
  unfold runHashcatBenchmark
  split
  · split
    · exact Or.inl ⟨_, rfl⟩
    · exact Or.inr rfl
  · exact Or.inr rfl

/-- Claim C7: exactly one spinner thread accompanies the benchmark
subprocess — the trace of `run_hashcat_benchmark` never starts two spinners,
starts exactly one whenever the subprocess runs, and on every path that
started the spinner it signals the stop event and joins the thread before
returning; all other work of `main` launches a subprocess only together with
an immediately following blocking wait on it. -/
theorem benchmark_spinner_discipline (inp : BenchInput) (w : World) :
    ((runHashcatBenchmark inp).1.count BEvent.spinnerStart ≤ 1) ∧
    (BEvent.procStart ∈ (runHashcatBenchmark inp).1 →
      (runHashcatBenchmark inp).1.count BEvent.spinnerStart = 1) ∧
    (BEvent.spinnerStart ∈ (runHashcatBenchmark inp).1 →
      ∃ pre, (runHashcatBenchmark inp).1 = pre ++ [BEvent.ret] ∧
        BEvent.spinnerSignal ∈ pre ∧ BEvent.spinnerJoin ∈ pre) ∧
    seqWaits (mainTrace w) = true := by
  rcases runHashcatBenchmark_fst_cases inp with ⟨l, hs⟩ | hs
  · rw [hs]
    refine ⟨?_, ?_, ?_, seqWaits_mainTrace w⟩
    · simp [List.count_cons]
    · intro h
      simp at h
    · intro h
      simp at h
  · rw [hs]
    rcases runBody_fst_cases inp with h | h | h | ⟨msg, h⟩ <;> rw [h]
    · refine ⟨by simp [List.count_cons], by intro hmem; simp at hmem, ?_,
              seqWaits_mainTrace w⟩
      intro hmem
      exact ⟨[.spinnerStart, .exceptionCaught, .spinnerSignal, .spinnerJoin],
             rfl, by simp, by simp⟩
    · refine ⟨by simp [List.count_cons], by intro hmem; simp [List.count_cons], ?_,
              seqWaits_mainTrace w⟩
      intro hmem
      exact ⟨[.spinnerStart, .procStart, .procWait inp.rc, .spinnerSignal, .spinnerJoin,
              .benchError inp.rc, .spinnerSignal], rfl, by simp, by simp⟩
    · refine ⟨by simp [List.count_cons], by intro hmem; simp [List.count_cons], ?_,
              seqWaits_mainTrace w⟩
      intro hmem
      exact ⟨[.spinnerStart, .procStart, .procWait inp.rc, .spinnerSignal, .spinnerJoin,
              .exceptionCaught, .spinnerSignal], rfl, by simp, by simp⟩
    · refine ⟨by simp [List.count_cons], by intro hmem; simp [List.count_cons], ?_,
              seqWaits_mainTrace w⟩
      intro hmem
      exact ⟨[.spinnerStart, .procStart, .procWait inp.rc, .spinnerSignal, .spinnerJoin,
              .printResult msg, .writeCache msg, .spinnerSignal], rfl, by simp, by simp⟩

/-- Witness for C7 at a failing benchmark run (the subprocess starts) in a
healthy `main` environment. -/
theorem benchmark_spinner_discipline_witness :
    (runHashcatBenchmark ⟨none, false, 1, ""⟩).1.count BEvent.spinnerStart = 1 ∧
    (∃ pre, (runHashcatBenchmark ⟨none, false, 1, ""⟩).1 = pre ++ [BEvent.ret] ∧
      BEvent.spinnerSignal ∈ pre ∧ BEvent.spinnerJoin ∈ pre) ∧
    seqWaits (mainTrace wOk) = true := by
  obtain ⟨-, b, c, d⟩ := benchmark_spinner_discipline ⟨none, false, 1, ""⟩ wOk
  exact ⟨b (by decide), c (by decide), d⟩

/-! ### Claim C6 -/

lemma pairwise_stage_of_bounds {l₁ l₂ : List Event} {k : Nat}
    (h₁ : ∀ e ∈ l₁, stageOf e ≤ k) (h₂ : ∀ e ∈ l₂, k ≤ stageOf e)
    (p₁ : l₁.Pairwise stageLE) (p₂ : l₂.Pairwise stageLE) :
    (l₁ ++ l₂).Pairwise stageLE :=
  List.pairwise_append.mpr ⟨p₁, p₂, fun a ha b hb => le_trans (h₁ a ha) (h₂ b hb)⟩

lemma pairwise_stage_const {l : List Event} {k : Nat} (h : ∀ e ∈ l, stageOf e = k) :
    l.Pairwise stageLE := by
  induction l with
  | nil => exact List.Pairwise.nil
  | cons e t ih =>
      refine List.Pairwise.cons ?_ (ih fun x hx => h x (by simp [hx]))
      intro b hb
      unfold stageLE
      rw [h e (by simp), h b (by simp [hb])]

lemma pairwise_front_exit (front : List Event) (c : Nat)
    (h : ∀ e ∈ front, stageOf e = 0) :
    (front ++ [Event.exitProg c]).Pairwise stageLE :=
  pairwise_stage_of_bounds (fun e he => by rw [h e he])
    (fun e he => by simp at he; subst he; simp [stageOf])
    (pairwise_stage_const h) (List.pairwise_singleton _ _)

/-- Every event of the post-validation pipeline belongs to stage 1 or later,
and conversion events precede the merge which precedes the cracking. -/
lemma pipelineTrace_stage_ge_one (w : World) :
    ∀ e ∈ pipelineTrace w, 1 ≤ stageOf e := by
  unfold pipelineTrace
  rcases hm : (mergeStep (convResult w).2).2 with _ | c <;> intro e he
  · rw [mergeStep_none_fst _ hm] at he
    simp only [List.append_assoc, List.mem_append, List.mem_cons,
               List.mem_singleton, List.not_mem_nil, or_false] at he
    rcases he with h | h | rfl | rfl
    · have := benchEvents_stage w e h
      omega
    · have := convertLoop_stage w.convert _ _ e h
      omega
    · simp [stageOf]
    · simp [stageOf]
  · rw [mergeStep_some_fst _ c hm] at he
    simp only [List.append_assoc, List.mem_append, List.mem_cons,
               List.mem_singleton, List.not_mem_nil, or_false] at he
    rcases he with h | h | rfl | h | rfl
    · have := benchEvents_stage w e h
      omega
    · have := convertLoop_stage w.convert _ _ e h
      omega
    · simp [stageOf]
    · have := crackLoop_stage w.crack _ _ e h
      omega
    · simp [stageOf]

lemma pipelineTrace_pairwise (w : World) : (pipelineTrace w).Pairwise stageLE := by
  have hb1 : ∀ e ∈ benchEvents w, stageOf e ≤ 2 := by
    intro e he
    have := benchEvents_stage w e he
    omega
  have hc2 : ∀ e ∈ (convResult w).1, stageOf e = 2 :=
    fun e he => convertLoop_stage w.convert _ _ e he
  have pb : (benchEvents w).Pairwise stageLE :=
    pairwise_stage_const (benchEvents_stage w)
  have pc : (convResult w).1.Pairwise stageLE := pairwise_stage_const hc2
  have pbc : (benchEvents w ++ (convResult w).1).Pairwise stageLE :=
    pairwise_stage_of_bounds hb1 (fun e he => (hc2 e he).symm ▸ le_refl 2) pb pc
  have hbc2 : ∀ e ∈ benchEvents w ++ (convResult w).1, stageOf e ≤ 2 := by
    intro e he
    rcases List.mem_append.mp he with h | h
    · exact hb1 e h
    · exact le_of_eq (hc2 e h)
  unfold pipelineTrace
  rcases hm : (mergeStep (convResult w).2).2 with _ | c
  · rw [mergeStep_none_fst _ hm]
    refine pairwise_stage_of_bounds hbc2 ?_ pbc ?_
    · intro e he
      fin_cases he <;> simp [stageOf]
    · refine List.Pairwise.cons ?_ (List.pairwise_singleton _ _)
      intro b hb
      fin_cases hb
      simp [stageLE, stageOf]
  · rw [mergeStep_some_fst _ c hm]
    have pm : (benchEvents w ++ (convResult w).1 ++ [Event.mergeWrite c]).Pairwise stageLE := by
      refine pairwise_stage_of_bounds hbc2 ?_ pbc (List.pairwise_singleton _ _)
      intro e he
      fin_cases he
      simp [stageOf]
    have hm3 : ∀ e ∈ benchEvents w ++ (convResult w).1 ++ [Event.mergeWrite c],
        stageOf e ≤ 3 := by
      intro e he
      rcases List.mem_append.mp he with h | h
      · have := hbc2 e h
        omega
      · simp only [List.mem_singleton] at h
        subst h
        simp [stageOf]
    have pk : (benchEvents w ++ (convResult w).1 ++ [Event.mergeWrite c] ++
        crackLoop w.crack WORDLISTS 0).Pairwise stageLE := by
      refine pairwise_stage_of_bounds hm3 ?_ pm
        (pairwise_stage_const (crackLoop_stage w.crack WORDLISTS 0))
      intro e he
      have := crackLoop_stage w.crack WORDLISTS 0 e he
      omega
    refine @pairwise_stage_of_bounds _ _ 4 ?_ ?_ pk (List.pairwise_singleton _ _)
    · intro e he
      rcases List.mem_append.mp he with h | h
      · have := hm3 e h
        omega
      · have := crackLoop_stage w.crack WORDLISTS 0 e h
        omega
    · intro e he
      fin_cases he
      simp [stageOf]

/-- Claim C6: `main` is a strictly sequential pipeline — in every trace the
stages appear in nondecreasing order (validation, then benchmark, then
conversion, then merge, then cracking, then the final exit), so no stage
restarts, reorders, or feeds back into an earlier one. -/
theorem pipeline_stages_ordered (w : World) : (mainTrace w).Pairwise stageLE := by
  unfold mainTrace
  rcases hv : validate w with tr | ev
  · rcases validate_fail_cases w tr hv with h1 | h1 | h1 | h1 | h1 | ⟨t, h1⟩ | ⟨r, h1⟩ <;>
      subst h1
    · exact pairwise_front_exit [.hashcatFail] 1 (by intro e he; fin_cases he; rfl)
    · exact pairwise_front_exit [.hashcatOk, .hcxFail] 1
        (by intro e he; fin_cases he <;> rfl)
    · exact pairwise_front_exit [.hashcatOk, .hcxOk, .capDirFail] 1
        (by intro e he; fin_cases he <;> rfl)
    · exact pairwise_front_exit [.hashcatOk, .hcxOk, .noCaptures] 0
        (by intro e he; fin_cases he <;> rfl)
    · exact pairwise_front_exit [.hashcatOk, .hcxOk, .capturesFound, .wordlistsDirFail] 1
        (by intro e he; fin_cases he <;> rfl)
    · exact pairwise_front_exit [.hashcatOk, .hcxOk, .capturesFound, .wordlistMissing t] 1
        (by intro e he; fin_cases he <;> rfl)
    · exact pairwise_front_exit
        [.hashcatOk, .hcxOk, .capturesFound, .wordlistsOk, .ruleMissing r] 1
        (by intro e he; fin_cases he <;> rfl)
  · refine pairwise_stage_of_bounds ?_ (pipelineTrace_stage_ge_one w)
      (pairwise_stage_const (validate_pass_stage w ev hv)) (pipelineTrace_pairwise w)
    intro e he
    rw [validate_pass_stage w ev hv e he]
    omega

/-! ### Claim C5 -/

lemma filter_eq_nil_of_false {p : Event → Bool} {l : List Event}
    (h : ∀ e ∈ l, p e = false) : l.filter p = [] := by
  induction l with
  | nil => rfl
  | cons e t ih =>
      rw [List.filter_cons]
      rw [h e (by simp)]
      exact ih (fun x hx => h x (by simp [hx]))

lemma isCrackStart_stage (e : Event) (h : isCrackStart e = true) : stageOf e = 4 := by
  cases e <;> first | rfl | simp [isCrackStart] at h

lemma crackLoop_filter (crack : Nat → Int) (ps : List Profile) (i : Nat) :
    (crackLoop crack ps i).filter isCrackStart =
      ps.map (fun p => Event.crackStart (sessionName p.title)) := by
  induction ps generalizing i with
  | nil => rfl
  | cons p rest ih =>
      simp [crackLoop, List.filter_cons, isCrackStart, ih]

lemma benchEvents_no_crackStart (w : World) :
    ∀ e ∈ benchEvents w, isCrackStart e = false := by
  intro e he
  unfold benchEvents at he
  rw [List.mem_map] at he
  obtain ⟨b, -, rfl⟩ := he
  rfl

lemma convertLoop_no_crackStart (conv : String → Int × Option String)
    (caps : List String) (dir : List (String × String)) :
    ∀ e ∈ (convertLoop conv caps dir).1, isCrackStart e = false := by
  intro e he
  by_contra hb
  have h4 := isCrackStart_stage e (by simpa using hb)
  have h2 := convertLoop_stage conv caps dir e he
  omega

/-- Claim C5: in every run that writes the merged hash file, the launched
cracking sessions are exactly one per attack profile, in the fixed order of
the profile table, whatever each cracking subprocess's outcome; the session
names derived from the titles are the seven escalating names. -/
theorem sessions_fixed_order (w : World) (s : String)
    (h : Event.mergeWrite s ∈ mainTrace w) :
    (mainTrace w).filter isCrackStart =
      WORDLISTS.map (fun p => Event.crackStart (sessionName p.title)) ∧
    WORDLISTS.map (fun p => sessionName p.title) =
      ["test", "ultra_fast", "fast", "medium", "slow", "slower", "slowest"] := by
  refine ⟨?_, by decide⟩
  unfold mainTrace at h ⊢
  rcases hv : validate w with tr | ev
  · rw [hv] at h
    rcases validate_fail_stage w tr hv _ h with h1 | h1 | h1
    · exact absurd h1 (by simp [stageOf])
    · cases h1
    · cases h1
  · rw [hv] at h
    show ((ev ++ pipelineTrace w).filter isCrackStart) = _
    have hev : ∀ e ∈ ev, isCrackStart e = false := by
      intro e he
      by_contra hb
      have h4 := isCrackStart_stage e (by simpa using hb)
      have h0 := validate_pass_stage w ev hv e he
      omega
    rw [List.filter_append, filter_eq_nil_of_false hev, List.nil_append]
    have hmem : Event.mergeWrite s ∈ pipelineTrace w := by
      rcases List.mem_append.mp h with h1 | h1
      · have h0 := validate_pass_stage w ev hv _ h1
        simp [stageOf] at h0
      · exact h1
    unfold pipelineTrace at hmem ⊢
    rcases hm : (mergeStep (convResult w).2).2 with _ | c
    · exfalso
      rw [hm] at hmem
      rw [mergeStep_none_fst _ hm] at hmem
      simp only [List.append_assoc, List.mem_append, List.mem_cons,
                 List.mem_singleton, List.not_mem_nil, or_false] at hmem
      rcases hmem with h1 | h1 | h1 | h1
      · have := benchEvents_stage w _ h1
        simp [stageOf] at this
      · have := convertLoop_stage w.convert _ _ _ h1
        simp [stageOf] at this
      · cases h1
      · cases h1
    · rw [mergeStep_some_fst _ c hm]
      have hconv : ∀ e ∈ (convResult w).1, isCrackStart e = false :=
        convertLoop_no_crackStart w.convert _ _
      rw [List.filter_append, List.filter_append, List.filter_append, List.filter_append]
      rw [filter_eq_nil_of_false (benchEvents_no_crackStart w)]
      rw [filter_eq_nil_of_false hconv]
      rw [crackLoop_filter]
      simp [List.filter_cons, isCrackStart]

/-- Witness for C5 in the healthy environment `wOk`, whose merged file
content is the single hash line. -/
theorem sessions_fixed_order_witness :
    (mainTrace wOk).filter isCrackStart =
      WORDLISTS.map (fun p => Event.crackStart (sessionName p.title)) ∧
    WORDLISTS.map (fun p => sessionName p.title) =
      ["test", "ultra_fast", "fast", "medium", "slow", "slower", "slowest"] :=
  sessions_fixed_order wOk "HASH\n" (by decide)

/-! ### Claim C3 -/

/-- When neither rules directory exists, no trace of the rules check appears
in the validation outcome. -/
lemma validate_no_rule_events (w : World)
    (hrx : (w.rulesDirExists || w.altRulesDirExists) = false) :
    (∀ tr, validate w = .fail tr → ∀ e ∈ tr, mentionsRuleCheck e = false) ∧
    (∀ ev, validate w = .pass ev → ∀ e ∈ ev, mentionsRuleCheck e = false) := by
  constructor
  · intro tr h e he
    unfold validate at h
    split at h
    · injection h with h2
      subst h2
      fin_cases he <;> rfl
    split at h
    · injection h with h2
      subst h2
      fin_cases he <;> rfl
    split at h
    · injection h with h2
      subst h2
      fin_cases he <;> rfl
    split at h
    · injection h with h2
      subst h2
      fin_cases he <;> rfl
    split at h
    · injection h with h2
      subst h2
      fin_cases he <;> rfl
    split at h
    · injection h with h2
      subst h2
      fin_cases he <;> rfl
    · split at h
      · rename_i hcond
        rw [hrx] at hcond
        cases hcond
      · exact absurd h (by simp)
  · intro ev h e he
    unfold validate at h
    split at h
    · exact absurd h (by simp)
    split at h
    · exact absurd h (by simp)
    split at h
    · exact absurd h (by simp)
    split at h
    · exact absurd h (by simp)
    split at h
    · exact absurd h (by simp)
    split at h
    · exact absurd h (by simp)
    · split at h
      · rename_i hcond
        rw [hrx] at hcond
        cases hcond
      · injection h with h2
        subst h2
        fin_cases he <;> rfl

/-- Claim C3 counterexample: in `wNoRules` neither rules directory exists,
so the promised rule files (the profile table does name one) cannot exist;
yet the program performs no rule check at all, never exits with status 1,
and proceeds to launch the cracking sessions. -/
theorem rules_check_skipped_counterexample :
    Event.crackStart "test" ∈ mainTrace wNoRules ∧
    Event.exitProg 1 ∉ mainTrace wNoRules ∧
    (mainTrace wNoRules).filter mentionsRuleCheck = [] ∧
    WORDLISTS.any (fun p => p.rule.isSome) = true := by decide

/-- Claim C3 (amended): every wordlist named by a profile is verified before
any cracking command — the first missing wordlist aborts the run with exit
status 1 during validation. Rule files are verified only when the primary or
the alternate rules directory exists; the first missing rule then aborts
with exit status 1 during validation. When neither rules directory exists,
the rule check is skipped entirely and the run proceeds without verifying
any rule file. -/
theorem wordlists_always_rules_conditionally (w : World) (p q : Profile)
    (h1 : w.hashcatRC = 0) (h2 : w.hcxRC = 0) (h3 : w.capDirExists = true)
    (h4 : globExt w.files ".cap" ++ globExt w.files ".22000" ≠ [])
    (h5 : w.wordlistsDirExists = true) :
    (WORDLISTS.find? (fun x => !(w.wordlistFiles.contains x.path)) = some p →
      mainTrace w =
        [.hashcatOk, .hcxOk, .capturesFound, .wordlistMissing p.title, .exitProg 1]) ∧
    (WORDLISTS.find? (fun x => !(w.wordlistFiles.contains x.path)) = none →
      (w.rulesDirExists || w.altRulesDirExists) = true →
      WORDLISTS.find? (fun x =>
        match x.rule with
        | some r =>
            !((if w.rulesDirExists then w.ruleFilesMain else w.ruleFilesAlt).contains r)
        | none => false) = some q →
      mainTrace w =
        [.hashcatOk, .hcxOk, .capturesFound, .wordlistsOk,
         .ruleMissing (q.rule.getD ""), .exitProg 1]) ∧
    ((w.rulesDirExists || w.altRulesDirExists) = false →
      (mainTrace w).filter mentionsRuleCheck = []) := by
  refine ⟨?_, ?_, ?_⟩
  · intro hfind
    unfold mainTrace validate
    simp at hfind
    simp [h1, h2, h3, h4, h5, hfind]
  · intro hfw hrx hfr
    unfold mainTrace validate
    simp at hfw hfr
    have hfw2 : List.find? (fun p => !decide (p.path ∈ w.wordlistFiles)) WORDLISTS = none := by
      rw [List.find?_eq_none]
      intro x hx
      simp [hfw x hx]
    simp [h1, h2, h3, h4, h5, hfw2, hrx, hfr]
  · intro hrx
    have hVF := (validate_no_rule_events w hrx).1
    have hVP := (validate_no_rule_events w hrx).2
    have hall : ∀ e ∈ mainTrace w, mentionsRuleCheck e = false := by
      intro e he
      unfold mainTrace at he
      rcases hv : validate w with tr | ev
      · rw [hv] at he
        exact hVF tr hv e he
      · rw [hv] at he
        rcases List.mem_append.mp he with hin | hin
        · exact hVP ev hv e hin
        · by_contra hb
          have hmr : mentionsRuleCheck e = true := by simpa using hb
          have hge := pipelineTrace_stage_ge_one w e hin
          have h0 : stageOf e = 0 := by
            cases e <;> first | rfl | simp [mentionsRuleCheck] at hmr
          omega
    exact filter_eq_nil_of_false hall

/-- Witness for the amended C3: a missing wordlist aborts, a missing rule
aborts when the rules directory exists, and with no rules directory the rule
check leaves no trace. -/
theorem wordlists_always_rules_conditionally_witness :
    mainTrace wNoWordlist =
      [.hashcatOk, .hcxOk, .capturesFound, .wordlistMissing "Fast (hk_hlm_founds)",
       .exitProg 1] ∧
    mainTrace wNoRule =
      [.hashcatOk, .hcxOk, .capturesFound, .wordlistsOk, .ruleMissing "best66.rule",
       .exitProg 1] ∧
    (mainTrace wNoRules).filter mentionsRuleCheck = [] :=
  ⟨(wordlists_always_rules_conditionally wNoWordlist
      ⟨"Fast (hk_hlm_founds)", "hk_hlm_founds.txt.gz", none⟩
      ⟨"Fast (hk_hlm_founds)", "hk_hlm_founds.txt.gz", none⟩
      rfl rfl rfl (by decide) rfl).1 (by decide),
   (wordlists_always_rules_conditionally wNoRule
      ⟨"Ultra fast (rockyou-65 with rules)", "rockyou-65.txt.gz", some "best66.rule"⟩
      ⟨"Ultra fast (rockyou-65 with rules)", "rockyou-65.txt.gz", some "best66.rule"⟩
      rfl rfl rfl (by decide) rfl).2.1 (by decide) (by decide) (by decide),
   (wordlists_always_rules_conditionally wNoRules
      ⟨"Test (rockyou-65)", "rockyou-65.txt.gz", none⟩
      ⟨"Test (rockyou-65)", "rockyou-65.txt.gz", none⟩
      rfl rfl rfl (by decide) rfl).2.2 (by decide)⟩

end Crackadilo
